import Mathlib

/-!
Verification of the progressive streaming / playback core of the Interlude
music player.  The Rust sources `src-tauri/src/stream_cache.rs` and
`src-tauri/src/audio.rs` are shallowly embedded: structs become structures,
`usize` becomes `Nat`, `f64`/`f32` become `ℚ` (the concrete values involved
are exactly representable dyadic rationals, so the embedded arithmetic agrees
with the source's floating point on every input used below), and fallible
operations return `Except String`.
-/

/-! ### Definitions: the embedded data model and operations -/

/-- One chunk of a progressive stream (`StreamChunk` in `stream_cache.rs`). -/
structure StreamChunk where
  chunk_index : Nat
  file_path : String
  segment_start : Nat
  segment_end : Nat
  duration_seconds : ℚ
  is_ready : Bool
deriving Repr, DecidableEq

/-- The `is_ready=false` placeholder pushed by `download_chunk` when the
`chunks` vector must grow past a gap (field-by-field from the Rust
`StreamChunk { chunk_index: state.chunks.len(), file_path: PathBuf::new(), .. }`). -/
def StreamChunk.placeholder (idx : Nat) : StreamChunk :=
  { chunk_index := idx
    file_path := ""
    segment_start := 0
    segment_end := 0
    duration_seconds := 0
    is_ready := false }

/-- State of a progressive stream download (`ProgressiveStreamState` in
`stream_cache.rs`).  The raw init-segment bytes are kept as a list of byte
values; HTTP/file-system handles do not appear in the state in the source
either. -/
structure ProgressiveStreamState where
  track_id : String
  total_segments : Nat
  segments_per_chunk : Nat
  first_chunk_segments : Nat
  chunks : List StreamChunk
  init_segment : Option (List Nat)
  media_urls : List String
  current_chunk : Nat
  is_complete : Bool
  sample_rate : Option Nat
  bit_depth : Option Nat
  track_name : Option String
  artist_name : Option String
  album_name : Option String
  priority_chunk : Option Nat
  download_queue : List Nat
  needs_reprioritize : Bool
deriving Repr, DecidableEq

/-- `ProgressiveStreamState::total_chunks` from `stream_cache.rs`. -/
def ProgressiveStreamState.total_chunks (s : ProgressiveStreamState) : Nat :=
  if s.total_segments ≤ s.first_chunk_segments then 1
  else
    let remaining := s.total_segments - s.first_chunk_segments
    1 + (remaining + s.segments_per_chunk - 1) / s.segments_per_chunk

/-- `ProgressiveStreamState::get_chunk_segment_range` from `stream_cache.rs`. -/
def ProgressiveStreamState.get_chunk_segment_range
    (s : ProgressiveStreamState) (chunk_index : Nat) : Nat × Nat :=
  if chunk_index = 0 then
    (0, min s.first_chunk_segments s.total_segments)
  else
    let offset := s.first_chunk_segments
    let chunk_offset := (chunk_index - 1) * s.segments_per_chunk
    let start := offset + chunk_offset
    (start, min (start + s.segments_per_chunk) s.total_segments)

/-- Helper: the chunk index the plan assigns to segment `x`. -/
def planIndexOf (F R x : Nat) : Nat :=
  if x < F then 0 else 1 + (x - F) / R

/-- Helper: the left endpoint of chunk `i` in the plan. -/
def planStart (F R i : Nat) : Nat :=
  if i = 0 then 0 else F + (i - 1) * R

/-- Helper: the right (exclusive) endpoint of chunk `i` in the plan. -/
def planEnd (N F R i : Nat) : Nat :=
  if i = 0 then min F N else min (F + (i - 1) * R + R) N

/-- Helper: the chunk count of the plan. -/
def planTotal (N F R : Nat) : Nat :=
  if N ≤ F then 1 else 1 + (N - F + R - 1) / R

/-- Witness for C3 at a concrete 40-segment plan (`F = 2`, `R = 8`). -/
def witnessStream : ProgressiveStreamState :=
  { track_id := "t1"
    total_segments := 40
    segments_per_chunk := 8
    first_chunk_segments := 2
    chunks := []
    init_segment := some [0]
    media_urls := List.replicate 40 "u"
    current_chunk := 0
    is_complete := false
    sample_rate := some 44100
    bit_depth := some 16
    track_name := some "track"
    artist_name := some "artist"
    album_name := some "album"
    priority_chunk := none
    download_queue := List.range 6
    needs_reprioritize := false }

/-- The readiness test `i < state.chunks.len() && state.chunks[i].is_ready`
used throughout `stream_cache.rs`. -/
def chunkIsReady (s : ProgressiveStreamState) (i : Nat) : Bool :=
  decide (i < s.chunks.length)
    && (s.chunks.getD i (StreamChunk.placeholder i)).is_ready

/-- The `while state.chunks.len() <= chunk_index { state.chunks.push(... is_ready:
false ...) }` loop of `download_chunk`: grow the vector with placeholders until
its length reaches `target_len`. -/
def padChunksTo (chunks : List StreamChunk) (target_len : Nat) : List StreamChunk :=
  chunks ++ (List.range (target_len - chunks.length)).map
    (fun j => StreamChunk.placeholder (chunks.length + j))

/-- The ready `StreamChunk` literal built by `download_chunk` after the last
segment write: segment range as computed at snapshot time, duration
`(end - start) * 4.0`, `is_ready: true`. -/
def downloadedChunk (s : ProgressiveStreamState) (chunk_index : Nat)
    (chunk_path : String) : StreamChunk :=
  { chunk_index := chunk_index
    file_path := chunk_path
    segment_start := (s.get_chunk_segment_range chunk_index).1
    segment_end := (s.get_chunk_segment_range chunk_index).2
    duration_seconds := (((s.get_chunk_segment_range chunk_index).2
        - (s.get_chunk_segment_range chunk_index).1 : Nat) : ℚ) * 4
    is_ready := true }

/-- The state mutation performed under the mutex at the end of
`StreamCache::download_chunk` (stream_cache.rs): store a ready
`StreamChunk` at `chunk_index` (padding with placeholders first) and set
`is_complete` when `chunk_index == total_chunks - 1`. -/
def downloadChunkUpdate (s : ProgressiveStreamState) (chunk_index : Nat)
    (chunk_path : String) : ProgressiveStreamState :=
  let chunks := (padChunksTo s.chunks (chunk_index + 1)).set chunk_index
    (downloadedChunk s chunk_index chunk_path)
  let s1 := { s with chunks := chunks }
  if chunk_index = s1.total_chunks - 1 then { s1 with is_complete := true } else s1

/-- `StreamCache::reprioritize_for_seek` (stream_cache.rs): rebuild the
download queue as the not-yet-ready indices in `[target, total)` followed by
the not-yet-ready indices in `[0, target)`, set `priority_chunk`,
`needs_reprioritize` and `current_chunk`, and return the new queue. -/
def reprioritizeForSeek (s : ProgressiveStreamState) (target_chunk : Nat) :
    List Nat × ProgressiveStreamState :=
  let total_chunks := s.total_chunks
  let new_queue :=
    (List.range' target_chunk (total_chunks - target_chunk)).filter
      (fun i => ! chunkIsReady s i)
    ++ (List.range target_chunk).filter (fun i => ! chunkIsReady s i)
  (new_queue,
   { s with
      priority_chunk := some target_chunk
      download_queue := new_queue
      needs_reprioritize := true
      current_chunk := target_chunk })

/-- The `ProgressiveStreamState` literal installed by
`StreamCache::start_progressive_stream` (stream_cache.rs):
`first_chunk_segments = 2`, `segments_per_chunk = 8`, empty chunk vector and a
sequential download queue `[0, 1, …, total_chunks − 1]`. -/
def initialStreamState (track_id : String) (media_urls : List String)
    (init_bytes : List Nat) (sample_rate bit_depth : Option Nat)
    (track_name artist_name album_name : Option String) : ProgressiveStreamState :=
  let total_segments := media_urls.length
  let first_chunk_segments := 2
  let regular_chunk_segments := 8
  let remaining_segments := total_segments - first_chunk_segments
  let remaining_chunks :=
    (remaining_segments + regular_chunk_segments - 1) / regular_chunk_segments
  let total_chunks := 1 + remaining_chunks
  { track_id := track_id
    total_segments := total_segments
    segments_per_chunk := regular_chunk_segments
    first_chunk_segments := first_chunk_segments
    chunks := []
    init_segment := some init_bytes
    media_urls := media_urls
    current_chunk := 0
    is_complete := false
    sample_rate := sample_rate
    bit_depth := bit_depth
    track_name := track_name
    artist_name := artist_name
    album_name := album_name
    priority_chunk := none
    download_queue := List.range total_chunks
    needs_reprioritize := false }

/-- The stream state reached by: `start_progressive_stream` on a 20-segment
manifest (which synchronously downloads chunk 0), followed by
`reprioritize_for_seek(id, 2)`.  Chunks 1, 2, 3 are still not ready. -/
def seekStream : ProgressiveStreamState :=
  (reprioritizeForSeek
    (downloadChunkUpdate
      (initialStreamState "t2" (List.replicate 20 "u") [0] (some 96000) (some 24)
        (some "n") (some "a") (some "b"))
      0 "c0")
    2).2

/-- Rust `f64 as usize`: truncate toward zero, saturating below at 0 (for the
values arising here the argument is never above `usize::MAX`). -/
def rustF64ToUsize (q : ℚ) : Nat := (⌊q⌋).toNat

/-- `StreamCache::get_chunk_for_position` (stream_cache.rs), for an active
stream: position below the first chunk's duration maps to chunk 0, otherwise
`1 + floor((pos − F·4) / (R·4))` clamped to `total_chunks − 1`. -/
def getChunkForPosition (s : ProgressiveStreamState) (position_seconds : ℚ) : Nat :=
  let segment_duration : ℚ := 4
  let first_chunk_duration := (s.first_chunk_segments : ℚ) * segment_duration
  if position_seconds < first_chunk_duration then 0
  else
    let position_after_first := position_seconds - first_chunk_duration
    let regular_chunk_duration := (s.segments_per_chunk : ℚ) * segment_duration
    let chunk_index := 1 + rustF64ToUsize ⌊position_after_first / regular_chunk_duration⌋
    min chunk_index (s.total_chunks - 1)

/-- The registry `progressive_streams: HashMap<String, ProgressiveStreamState>`;
modelled as an association list whose lookup takes the first matching key. -/
abbrev StreamMap := List (String × ProgressiveStreamState)

/-- `StreamCache::has_active_stream` (stream_cache.rs):
`streams.contains_key(track_id)`. -/
def hasActiveStream (streams : StreamMap) (track_id : String) : Bool :=
  streams.any (fun p => p.1 = track_id)

/-- `streams.insert(track_id.to_string(), state)` on the registry. -/
def streamsInsert (streams : StreamMap) (track_id : String)
    (state : ProgressiveStreamState) : StreamMap :=
  (track_id, state) :: streams.filter (fun p => ! (p.1 = track_id : Bool))

/-- `streams.get_mut(track_id)` followed by an in-place update. -/
def streamsUpdate (streams : StreamMap) (track_id : String)
    (f : ProgressiveStreamState → ProgressiveStreamState) : StreamMap :=
  streams.map (fun p => if p.1 = track_id then (p.1, f p.2) else p)

/-- The chunk file name `format!("{}_{}.m4a", track_id, chunk_index)` in the
stream cache directory. -/
def chunkPath (track_id : String) (chunk_index : Nat) : String :=
  track_id ++ "_" ++ toString chunk_index ++ ".m4a"

/-- `ProgressiveStreamResult` from stream_cache.rs. -/
structure ProgressiveStreamResult where
  success : Bool
  first_chunk_path : Option String
  total_chunks : Nat
  error : Option String
  source : String
  format : String
  sample_rate : Option Nat
  bit_depth : Option Nat
deriving Repr, DecidableEq

/-- The preview-manifest validation block of
`StreamCache::start_progressive_stream` (stream_cache.rs):
`MIN_SEGMENTS_FOR_FULL_TRACK = 20`; with a declared duration,
`expected_segments = (duration_ms / 1000) / 4` and the manifest is rejected
when `total_segments < expected_segments / 2`; without a declared duration any
manifest under 20 segments is rejected. -/
def previewCheck (total_segments : Nat) (expected_duration_ms : Option Nat) :
    Except String Unit :=
  if total_segments < 20 then
    match expected_duration_ms with
    | some duration_ms =>
        let expected_seconds := duration_ms / 1000
        let expected_segments := expected_seconds / 4
        if total_segments < expected_segments / 2 then
          Except.error ("Preview manifest detected: got " ++ toString total_segments
            ++ " segments, expected ~" ++ toString expected_segments ++ " for "
            ++ toString expected_seconds ++ "s track")
        else Except.ok ()
    | none =>
        Except.error ("Preview manifest detected: only " ++ toString total_segments
          ++ " segments")
  else Except.ok ()

/-- `StreamCache::start_progressive_stream` (stream_cache.rs), after base64
decoding and DASH parsing produced `media_urls` (the BTS/JSON branch errors
out before this point).  The two network effects are parameters: `init_fetch`
is the result of the init-segment GET and `chunk0_net` the result of chunk 0's
segment downloads; `download_chunk(track_id, 0)` is the synchronous first
chunk download whose state update is `downloadChunkUpdate`.  Returns the
updated registry together with the command result. -/
def startProgressiveStream (streams : StreamMap) (track_id : String)
    (media_urls : List String) (init_fetch : Except String (List Nat))
    (sample_rate bit_depth : Option Nat)
    (track_name artist_name album_name : Option String)
    (expected_duration_ms : Option Nat) (chunk0_net : Except String Unit) :
    StreamMap × Except String ProgressiveStreamResult :=
  let total_segments := media_urls.length
  match previewCheck total_segments expected_duration_ms with
  | .error e => (streams, .error e)
  | .ok _ =>
    match init_fetch with
    | .error e => (streams, .error e)
    | .ok init_bytes =>
      let first_chunk_segments := 2
      let regular_chunk_segments := 8
      let remaining_segments := total_segments - first_chunk_segments
      let remaining_chunks :=
        (remaining_segments + regular_chunk_segments - 1) / regular_chunk_segments
      let total_chunks := 1 + remaining_chunks
      let state := initialStreamState track_id media_urls init_bytes sample_rate
        bit_depth track_name artist_name album_name
      let streams1 := streamsInsert streams track_id state
      match chunk0_net with
      | .error e => (streams1, .error e)
      | .ok _ =>
        let streams2 := streamsUpdate streams1 track_id
          (fun st => downloadChunkUpdate st 0 (chunkPath track_id 0))
        (streams2,
         .ok { success := true
               first_chunk_path := some (chunkPath track_id 0)
               total_chunks := total_chunks
               error := none
               source := "Tidal"
               format := "FLAC"
               sample_rate := sample_rate
               bit_depth := bit_depth })

/-- `RepeatMode` from audio.rs. -/
inductive RepeatMode where
  | Off
  | One
  | All
deriving Repr, DecidableEq

/-- `PlaybackState` from audio.rs. -/
structure PlaybackState where
  is_playing : Bool
  current_track : Option String
  position : ℚ
  duration : ℚ
  volume : ℚ
  sample_rate : Nat
  bit_depth : Nat
  channels : Nat
  shuffle : Bool
  repeat_mode : RepeatMode
  track_finished : Bool
deriving Repr, DecidableEq

/-- The audio thread's shared containers (`AudioThread` in audio.rs): the
playback state, the interleaved sample buffer, the play cursor
`buffer_position`, and the negotiated output format remembered after `Play`.
The cpal device/stream handles perform no computation relevant here. -/
structure AudioThreadState where
  state : PlaybackState
  sample_buffer : List ℚ
  buffer_position : Nat
  output_sample_rate : Option Nat
  output_channels : Option Nat
deriving Repr, DecidableEq

/-- `AudioThread::seek_internal` (audio.rs): read `sample_rate` and `channels`
from the playback state, set the play cursor to
`(position * sample_rate as f64 * channels as f64) as usize` and store the
new position.  The source neither clamps `position` to `[0, duration]` nor
rounds: the float-to-integer cast truncates. -/
def seekInternal (m : AudioThreadState) (position : ℚ) : AudioThreadState :=
  let sample_rate := m.state.sample_rate
  let channels := m.state.channels
  let sample_position :=
    rustF64ToUsize (position * (sample_rate : ℚ) * (channels : ℚ))
  { m with
    buffer_position := sample_position
    state := { m.state with position := position } }

/-- The audio thread's `Pause` command handler (the `run` loop of audio.rs):
`self.state.write().is_playing = false`. -/
def pauseInternal (m : AudioThreadState) : AudioThreadState :=
  { m with state := { m.state with is_playing := false } }

/-- `AudioThread::append_samples_internal` (audio.rs) from the point where the
file has been decoded, resampled and rechanneled into `final_samples` (those
steps are I/O plus the pure converters and only determine `final_samples`):
extend the shared buffer in place, recompute `duration` from the new buffer
length and the remembered output format, clear `track_finished`, set
`is_playing`.  The guard at the top of the function errors out when no output
format was negotiated by a previous `Play`. -/
def appendSamplesInternal (m : AudioThreadState) (final_samples : List ℚ) :
    Except String AudioThreadState :=
  match m.output_sample_rate, m.output_channels with
  | some output_sample_rate, some output_channels =>
    let buffer := m.sample_buffer ++ final_samples
    let new_duration := (buffer.length : ℚ)
        / ((output_sample_rate : ℚ) * (output_channels : ℚ))
    .ok { m with
      sample_buffer := buffer
      state := { m.state with
        duration := new_duration
        track_finished := false
        is_playing := true } }
  | _, _ =>
    .error "No output sample rate set - play_internal must be called first"

/-- A playing 2 Hz mono engine state with a 1 s buffer of two samples. -/
def audioExample : AudioThreadState :=
  { state :=
      { is_playing := true
        current_track := some "a.flac"
        position := 0
        duration := 1
        volume := 1
        sample_rate := 2
        bit_depth := 16
        channels := 1
        shuffle := false
        repeat_mode := RepeatMode.Off
        track_finished := false }
    sample_buffer := [0, 0]
    buffer_position := 0
    output_sample_rate := some 2
    output_channels := some 1 }

/-- The state produced by appending two decoded samples to `audioExample`. -/
def appendedExample : AudioThreadState :=
  ((appendSamplesInternal audioExample [1, 1]).toOption).getD audioExample

/-- The state produced by appending one decoded sample to the paused engine. -/
def appendedPausedExample : AudioThreadState :=
  ((appendSamplesInternal (pauseInternal audioExample) [1]).toOption).getD
    audioExample

/-- One frame of `convert_channels` (audio.rs): the body of the
`for frame in 0..num_frames` loop at `frame_start = frame * from_channels`,
with the source's branch structure (stereo→mono average, multichannel→stereo
pick, generic truncating downmix, mono→stereo duplication, generic
zero-padding upmix).  Out-of-range reads never happen in the source (the loop
bound guarantees it); `getD … 0` makes that total. -/
def convertFrame (samples : List ℚ) (from_channels to_channels frame_start : Nat) :
    List ℚ :=
  if to_channels < from_channels then
    if to_channels = 1 ∧ from_channels = 2 then
      [(samples.getD frame_start 0 + samples.getD (frame_start + 1) 0) / 2]
    else if to_channels = 2 ∧ 2 < from_channels then
      [samples.getD frame_start 0,
       if 1 < from_channels then samples.getD (frame_start + 1) 0
       else samples.getD frame_start 0]
    else
      (List.range to_channels).map (fun ch => samples.getD (frame_start + ch) 0)
  else
    if from_channels = 1 ∧ to_channels = 2 then
      [samples.getD frame_start 0, samples.getD frame_start 0]
    else
      (List.range to_channels).map
        (fun ch => if ch < from_channels then samples.getD (frame_start + ch) 0 else 0)

/-- `convert_channels` (audio.rs): identity when the channel counts agree (or
the input channel count is 0), otherwise the frame-by-frame conversion over
`num_frames = samples.len() / from_channels` frames. -/
def convert_channels (samples : List ℚ) (from_channels to_channels : Nat) :
    List ℚ :=
  if from_channels = to_channels ∨ from_channels = 0 then samples
  else
    let num_frames := samples.length / from_channels
    (List.range num_frames).flatMap
      (fun frame => convertFrame samples from_channels to_channels
        (frame * from_channels))

/-- One frame of the channel-conversion rules exactly as the specification
states them: duplicate for `1 → 2`, `(L+R)/2` for `2 → 1`, channels 0 and 1
for `n > 2 → 2`, and otherwise truncate to the first `m` channels (`m < n`) or
zero-pad the extra channels (`m > n`). -/
def rechannelSpecFrame (frame : List ℚ) (n m : Nat) : List ℚ :=
  if n = 1 ∧ m = 2 then [frame.getD 0 0, frame.getD 0 0]
  else if n = 2 ∧ m = 1 then [(frame.getD 0 0 + frame.getD 1 0) / 2]
  else if 2 < n ∧ m = 2 then [frame.getD 0 0, frame.getD 1 0]
  else (List.range m).map (fun ch => if ch < n then frame.getD ch 0 else 0)

/-- The converter the specification describes: the identity on `c → c` and the
per-frame rules of `rechannelSpecFrame` applied to each `n`-sample frame. -/
def rechannelSpec (samples : List ℚ) (n m : Nat) : List ℚ :=
  if n = m then samples
  else
    (List.range (samples.length / n)).flatMap
      (fun f => rechannelSpecFrame ((samples.drop (f * n)).take n) n m)

/-! ### Theorems -/

theorem total_chunks_eq_planTotal (s : ProgressiveStreamState) :
    s.total_chunks
      = planTotal s.total_segments s.first_chunk_segments s.segments_per_chunk := rfl

theorem segment_range_eq_plan (s : ProgressiveStreamState) (i : Nat) :
    s.get_chunk_segment_range i
      = (planStart s.first_chunk_segments s.segments_per_chunk i,
         planEnd s.total_segments s.first_chunk_segments s.segments_per_chunk i) := by
  unfold ProgressiveStreamState.get_chunk_segment_range planStart planEnd
  split <;> simp

theorem planTotal_eq_ceil (N F R : Nat) (hR : 1 ≤ R) :
    planTotal N F R = 1 + (max (N - F) 0 + R - 1) / R := by
  unfold planTotal
  rcases le_or_lt N F with h | h
  · rw [if_pos h]
    have h0 : N - F = 0 := Nat.sub_eq_zero_of_le h
    rw [h0]
    have hz : (R - 1) / R = 0 := Nat.div_eq_of_lt (by omega)
    simp [hz]
  · rw [if_neg (Nat.not_le_of_lt h)]
    simp

/-- Existence half of the partition property: segment `x` lies in the range of
`planIndexOf F R x`, which is a valid chunk index. -/
theorem planIndexOf_mem (N F R x : Nat) (hR : 1 ≤ R) (hx : x < N) :
    planIndexOf F R x < planTotal N F R ∧
    planStart F R (planIndexOf F R x) ≤ x ∧
    x < planEnd N F R (planIndexOf F R x) := by
  by_cases hxF : x < F
  · have h0 : planIndexOf F R x = 0 := by simp [planIndexOf, hxF]
    rw [h0]
    refine ⟨?_, ?_, ?_⟩
    · unfold planTotal
      split
      · exact Nat.one_pos
      · exact Nat.lt_of_lt_of_le Nat.one_pos (Nat.le_add_right 1 _)
    · simp [planStart]
    · unfold planEnd
      rw [if_pos rfl]
      exact lt_min hxF hx
  · push_neg at hxF
    have hFN : F < N := Nat.lt_of_le_of_lt hxF hx
    obtain ⟨q, hqe⟩ : ∃ q, (x - F) / R = q := ⟨_, rfl⟩
    have hq : planIndexOf F R x = 1 + q := by
      simp [planIndexOf, Nat.not_lt_of_le hxF, hqe]
    have hlow : q * R ≤ x - F := hqe ▸ Nat.div_mul_le_self (x - F) R
    have hdm : R * q + (x - F) % R = x - F := by
      rw [← hqe]; exact Nat.div_add_mod _ _
    have hml : (x - F) % R < R := Nat.mod_lt _ (by omega)
    have hcomm : R * q = q * R := Nat.mul_comm _ _
    rw [hq]
    refine ⟨?_, ?_, ?_⟩
    · -- index bound
      unfold planTotal
      rw [if_neg (Nat.not_le_of_lt hFN)]
      obtain ⟨u, hue⟩ : ∃ u, (N - 1 - F) / R = u := ⟨_, rfl⟩
      have hmono : q ≤ u := by
        rw [← hqe, ← hue]; exact Nat.div_le_div_right (by omega)
      have hstep : (N - 1 - F + R) / R = u + 1 := by
        rw [Nat.add_div_right _ (by omega), hue]
      have heq : N - 1 - F + R = N - F + R - 1 := by omega
      rw [heq] at hstep
      rw [hstep]
      omega
    · unfold planStart
      rw [if_neg (by simp), Nat.add_sub_cancel_left]
      omega
    · unfold planEnd
      rw [if_neg (by simp), Nat.add_sub_cancel_left]
      refine lt_min ?_ hx
      omega

/-- Uniqueness half: any chunk whose range contains `x` is `planIndexOf x`. -/
theorem planIndexOf_unique (N F R x i : Nat)
    (h1 : planStart F R i ≤ x) (h2 : x < planEnd N F R i) :
    i = planIndexOf F R x := by
  rcases Nat.eq_zero_or_pos i with hi | hi
  · subst hi
    unfold planEnd at h2
    rw [if_pos rfl] at h2
    have hxF : x < F := lt_of_lt_of_le h2 (min_le_left _ _)
    simp [planIndexOf, hxF]
  · have hine : i ≠ 0 := by omega
    unfold planStart at h1
    unfold planEnd at h2
    rw [if_neg hine] at h1
    rw [if_neg hine] at h2
    have h2' : x < F + (i - 1) * R + R := lt_of_lt_of_le h2 (min_le_left _ _)
    have hxF : F ≤ x := by omega
    have hup : x - F < (i - 1 + 1) * R := by
      rw [Nat.add_one_mul]
      omega
    have hdiv : (x - F) / R = i - 1 :=
      Nat.div_eq_of_lt_le (by omega) hup
    have hfin : planIndexOf F R x = 1 + (i - 1) := by
      simp [planIndexOf, Nat.not_lt_of_le hxF, hdiv]
    rw [hfin]
    omega

/-- C3: For a stream with `N ≥ 1` total segments, first-chunk size `F`,
regular-chunk size `R ≥ 1`: `total_chunks = 1 + ceil(max(0, N − F) / R)`
(in `Nat`, `ceil(a / R) = (a + R − 1) / R`), chunk 0 covers
`[0, min(F, N))`, chunk `i > 0` covers `[F + (i−1)·R, min(F + i·R, N))`,
and the chunk ranges partition `[0, N)` exactly: every segment index lies in
the range of exactly one chunk index below `total_chunks`. -/
theorem C3_chunk_plan_partition (s : ProgressiveStreamState)
    (_hN : 1 ≤ s.total_segments) (hR : 1 ≤ s.segments_per_chunk) :
    s.total_chunks
      = 1 + (max (s.total_segments - s.first_chunk_segments) 0
              + s.segments_per_chunk - 1) / s.segments_per_chunk ∧
    s.get_chunk_segment_range 0 = (0, min s.first_chunk_segments s.total_segments) ∧
    (∀ i, 0 < i → s.get_chunk_segment_range i
        = (s.first_chunk_segments + (i - 1) * s.segments_per_chunk,
           min (s.first_chunk_segments + (i - 1) * s.segments_per_chunk
                  + s.segments_per_chunk) s.total_segments)) ∧
    ∀ x, x < s.total_segments →
      ∃! i, i < s.total_chunks ∧
        (s.get_chunk_segment_range i).1 ≤ x ∧ x < (s.get_chunk_segment_range i).2 := by
  refine ⟨?_, ?_, fun i hi => ?_, fun x hx => ?_⟩
  · rw [total_chunks_eq_planTotal, planTotal_eq_ceil _ _ _ hR]
  · rw [segment_range_eq_plan]
    simp [planStart, planEnd]
  · rw [segment_range_eq_plan]
    have hine : i ≠ 0 := by omega
    simp [planStart, planEnd, hine]
  · obtain ⟨hlt, hle, hgt⟩ :=
      planIndexOf_mem s.total_segments s.first_chunk_segments s.segments_per_chunk x hR hx
    refine ⟨planIndexOf s.first_chunk_segments s.segments_per_chunk x,
      ⟨?_, ?_, ?_⟩, fun i hi => ?_⟩
    · rw [total_chunks_eq_planTotal]; exact hlt
    · rw [segment_range_eq_plan]; exact hle
    · rw [segment_range_eq_plan]; exact hgt
    · obtain ⟨_, hi1, hi2⟩ := hi
      rw [segment_range_eq_plan] at hi1 hi2
      exact planIndexOf_unique s.total_segments s.first_chunk_segments
        s.segments_per_chunk x i hi1 hi2

theorem C3_witness :
    1 ≤ witnessStream.total_segments ∧ 1 ≤ witnessStream.segments_per_chunk ∧
    (witnessStream.total_chunks
      = 1 + (max (witnessStream.total_segments - witnessStream.first_chunk_segments) 0
              + witnessStream.segments_per_chunk - 1) / witnessStream.segments_per_chunk ∧
    witnessStream.get_chunk_segment_range 0
      = (0, min witnessStream.first_chunk_segments witnessStream.total_segments) ∧
    (∀ i, 0 < i → witnessStream.get_chunk_segment_range i
        = (witnessStream.first_chunk_segments + (i - 1) * witnessStream.segments_per_chunk,
           min (witnessStream.first_chunk_segments
                  + (i - 1) * witnessStream.segments_per_chunk
                  + witnessStream.segments_per_chunk) witnessStream.total_segments)) ∧
    ∀ x, x < witnessStream.total_segments →
      ∃! i, i < witnessStream.total_chunks ∧
        (witnessStream.get_chunk_segment_range i).1 ≤ x ∧
        x < (witnessStream.get_chunk_segment_range i).2) :=
  ⟨by decide, by decide, C3_chunk_plan_partition witnessStream (by decide) (by decide)⟩

/-- C1 fails on the code: `download_chunk` sets `is_complete` as soon as the
chunk with the *last index* completes, not when all chunks are ready (the
comment above the check reads "Check if all chunks downloaded").  After a
seek to chunk 2, `download_next_chunk` downloads chunk 3 = `total_chunks - 1`
and the update marks the stream complete although chunks 1 and 2 are still
not ready. -/
theorem C1_is_complete_without_all_ready :
    (downloadChunkUpdate seekStream 3 "c3").is_complete = true ∧
    1 < (downloadChunkUpdate seekStream 3 "c3").total_chunks ∧
    chunkIsReady (downloadChunkUpdate seekStream 3 "c3") 1 = false ∧
    chunkIsReady (downloadChunkUpdate seekStream 3 "c3") 2 = false := by
  decide

theorem padChunksTo_length (chunks : List StreamChunk) (target_len : Nat) :
    (padChunksTo chunks target_len).length = max chunks.length target_len := by
  unfold padChunksTo
  rw [List.length_append, List.length_map, List.length_range]
  omega

theorem padChunksTo_getElem_lt (chunks : List StreamChunk) (target_len j : Nat)
    (hj : j < chunks.length) :
    (padChunksTo chunks target_len)[j]? = chunks[j]? := by
  unfold padChunksTo
  rw [List.getElem?_append, if_pos hj]

theorem chunkIsReady_eq (s : ProgressiveStreamState) (j : Nat) :
    chunkIsReady s j = (s.chunks[j]?.map (fun c => c.is_ready)).getD false := by
  unfold chunkIsReady
  by_cases h : j < s.chunks.length
  · simp [List.getD_eq_getElem?_getD, List.getElem?_eq_getElem h, h]
  · simp [List.getD_eq_getElem?_getD, List.getElem?_eq_none (le_of_not_lt h), h]

theorem downloadChunkUpdate_chunks (s : ProgressiveStreamState) (i : Nat)
    (path : String) :
    (downloadChunkUpdate s i path).chunks
      = (padChunksTo s.chunks (i + 1)).set i (downloadedChunk s i path) := by
  unfold downloadChunkUpdate
  dsimp only
  split <;> rfl

theorem downloadChunkUpdate_download_queue (s : ProgressiveStreamState) (i : Nat)
    (path : String) :
    (downloadChunkUpdate s i path).download_queue = s.download_queue := by
  unfold downloadChunkUpdate
  dsimp only
  split <;> rfl

theorem downloadChunkUpdate_ready_mono (s : ProgressiveStreamState) (i : Nat)
    (path : String) (j : Nat) (hj : chunkIsReady s j = true) :
    chunkIsReady (downloadChunkUpdate s i path) j = true := by
  rw [chunkIsReady_eq] at hj ⊢
  rw [downloadChunkUpdate_chunks]
  have hjl : j < s.chunks.length := by
    by_contra hnl
    rw [List.getElem?_eq_none (le_of_not_lt hnl)] at hj
    simp at hj
  by_cases hij : j = i
  · subst hij
    rw [List.getElem?_set_self (by rw [padChunksTo_length]; omega)]
    rfl
  · rw [List.getElem?_set_ne (Ne.symm hij), padChunksTo_getElem_lt _ _ _ hjl]
    exact hj

theorem reprioritize_queue_eq (s : ProgressiveStreamState) (k : Nat) :
    (reprioritizeForSeek s k).1
      = (List.range' k (s.total_chunks - k)).filter (fun i => ! chunkIsReady s i)
        ++ (List.range k).filter (fun i => ! chunkIsReady s i) := rfl

theorem reprioritize_queue_perm (s : ProgressiveStreamState) (k : Nat)
    (hk : k ≤ s.total_chunks) :
    ((reprioritizeForSeek s k).1).Perm
      ((List.range s.total_chunks).filter (fun i => ! chunkIsReady s i)) := by
  rw [reprioritize_queue_eq]
  have hsplit : List.range k ++ List.range' k (s.total_chunks - k)
      = List.range s.total_chunks := by
    rw [List.range_eq_range' k, List.range_eq_range' s.total_chunks]
    have := List.range'_append 0 k (s.total_chunks - k) 1
    simp only [Nat.mul_one, Nat.zero_add, Nat.one_mul] at this
    rw [this]
    congr 1
    omega
  calc ((List.range' k (s.total_chunks - k)).filter (fun i => ! chunkIsReady s i)
          ++ (List.range k).filter (fun i => ! chunkIsReady s i)).Perm
        ((List.range k).filter (fun i => ! chunkIsReady s i)
          ++ (List.range' k (s.total_chunks - k)).filter (fun i => ! chunkIsReady s i)) :=
        List.perm_append_comm
    _ = (List.range k ++ List.range' k (s.total_chunks - k)).filter
          (fun i => ! chunkIsReady s i) := (List.filter_append _ _).symm
    _ = (List.range s.total_chunks).filter (fun i => ! chunkIsReady s i) := by
        rw [hsplit]

theorem reprioritize_queue_mem (s : ProgressiveStreamState) (k : Nat)
    (hk : k ≤ s.total_chunks) (j : Nat) :
    j ∈ (reprioritizeForSeek s k).1
      ↔ (j < s.total_chunks ∧ chunkIsReady s j = false) := by
  rw [(reprioritize_queue_perm s k hk).mem_iff, List.mem_filter, List.mem_range]
  simp

theorem reprioritize_queue_nodup (s : ProgressiveStreamState) (k : Nat)
    (hk : k ≤ s.total_chunks) :
    ((reprioritizeForSeek s k).1).Nodup :=
  ((reprioritize_queue_perm s k hk).symm).nodup
    (List.Nodup.filter _ (List.nodup_range _))

/-- C5: `reprioritize_for_seek(id, k)` returns a permutation of exactly the
not-yet-ready chunk indices in which every index `≥ k` precedes every index
`< k`, each group ascending, and it sets `priority_chunk = k`,
`needs_reprioritize = true` and `current_chunk = k` (the queue stored in the
state is the returned one). -/
theorem C5_reprioritize_for_seek (s : ProgressiveStreamState) (k : Nat)
    (hk : k < s.total_chunks) :
    ((reprioritizeForSeek s k).1).Perm
      ((List.range s.total_chunks).filter (fun i => ! chunkIsReady s i)) ∧
    (∃ q1 q2, (reprioritizeForSeek s k).1 = q1 ++ q2 ∧
      (∀ a ∈ q1, k ≤ a) ∧ (∀ b ∈ q2, b < k) ∧
      q1.Sorted (· < ·) ∧ q2.Sorted (· < ·)) ∧
    (reprioritizeForSeek s k).2.priority_chunk = some k ∧
    (reprioritizeForSeek s k).2.needs_reprioritize = true ∧
    (reprioritizeForSeek s k).2.current_chunk = k ∧
    (reprioritizeForSeek s k).2.download_queue = (reprioritizeForSeek s k).1 := by
  refine ⟨reprioritize_queue_perm s k (Nat.le_of_lt hk), ?_, rfl, rfl, rfl, rfl⟩
  refine ⟨(List.range' k (s.total_chunks - k)).filter (fun i => ! chunkIsReady s i),
    (List.range k).filter (fun i => ! chunkIsReady s i),
    reprioritize_queue_eq s k, ?_, ?_, ?_, ?_⟩
  · intro a ha
    have := (List.mem_filter.mp ha).1
    exact (List.mem_range'_1.mp this).1
  · intro b hb
    have := (List.mem_filter.mp hb).1
    exact List.mem_range.mp this
  · exact List.Pairwise.filter _ (List.pairwise_lt_range' k _)
  · exact List.Pairwise.filter _ (List.sorted_lt_range k)

/-- Witness for C5: seek to chunk 4 of the 40-segment stream while no chunk is
ready yet. -/
theorem C5_witness :
    ((reprioritizeForSeek witnessStream 4).1).Perm
      ((List.range witnessStream.total_chunks).filter
        (fun i => ! chunkIsReady witnessStream i)) ∧
    (∃ q1 q2, (reprioritizeForSeek witnessStream 4).1 = q1 ++ q2 ∧
      (∀ a ∈ q1, 4 ≤ a) ∧ (∀ b ∈ q2, b < 4) ∧
      q1.Sorted (· < ·) ∧ q2.Sorted (· < ·)) ∧
    (reprioritizeForSeek witnessStream 4).2.priority_chunk = some 4 ∧
    (reprioritizeForSeek witnessStream 4).2.needs_reprioritize = true ∧
    (reprioritizeForSeek witnessStream 4).2.current_chunk = 4 ∧
    (reprioritizeForSeek witnessStream 4).2.download_queue
      = (reprioritizeForSeek witnessStream 4).1 :=
  C5_reprioritize_for_seek witnessStream 4 (by decide)

/-- C9 fails on the code: completing a chunk (`download_chunk`'s state update)
never removes its index from `download_queue`, so immediately after
`start_progressive_stream` returns (chunk 0 was downloaded synchronously) the
ready index 0 is still in the queue. -/
theorem C9_ready_chunk_stays_in_queue :
    chunkIsReady
      (downloadChunkUpdate
        (initialStreamState "t3" (List.replicate 20 "u") [0] none none none none none)
        0 "c0") 0 = true ∧
    (downloadChunkUpdate
      (initialStreamState "t3" (List.replicate 20 "u") [0] none none none none none)
      0 "c0").download_queue = [0, 1, 2, 3] := by
  decide

/-- C9 amended: the initial queue is `[0, …, total_chunks − 1]` (hence contains
every not-ready index exactly once); a chunk completion leaves the queue
untouched (so ready indices may linger in it) and never turns a ready chunk
back into a not-ready one; and a reprioritization rebuilds the queue to
contain exactly the not-ready indices, each exactly once. -/
theorem C9_download_queue_superset (track_id : String) (media_urls : List String)
    (init_bytes : List Nat) (sample_rate bit_depth : Option Nat)
    (track_name artist_name album_name : Option String)
    (s : ProgressiveStreamState) (i k : Nat) (path : String)
    (hk : k < s.total_chunks) :
    (initialStreamState track_id media_urls init_bytes sample_rate bit_depth
        track_name artist_name album_name).download_queue
      = List.range (initialStreamState track_id media_urls init_bytes sample_rate
          bit_depth track_name artist_name album_name).total_chunks ∧
    (downloadChunkUpdate s i path).download_queue = s.download_queue ∧
    (∀ j, chunkIsReady s j = true → chunkIsReady (downloadChunkUpdate s i path) j = true) ∧
    ((reprioritizeForSeek s k).2.download_queue.Nodup ∧
      ∀ j, j ∈ (reprioritizeForSeek s k).2.download_queue
        ↔ (j < s.total_chunks ∧ chunkIsReady s j = false)) := by
  refine ⟨?_, downloadChunkUpdate_download_queue s i path,
    downloadChunkUpdate_ready_mono s i path, reprioritize_queue_nodup s k (Nat.le_of_lt hk),
    fun j => reprioritize_queue_mem s k (Nat.le_of_lt hk) j⟩
  · show List.range _ = List.range _
    congr 1
    show _ = planTotal media_urls.length 2 8
    unfold planTotal
    split <;> omega

/-- Witness for C9's amended statement on the concrete 40-segment stream. -/
theorem C9_witness :
    (initialStreamState "t1" (List.replicate 40 "u") [0] none none none none
        none).download_queue
      = List.range (initialStreamState "t1" (List.replicate 40 "u") [0] none none
          none none none).total_chunks ∧
    (downloadChunkUpdate witnessStream 1 "c1").download_queue
      = witnessStream.download_queue ∧
    (∀ j, chunkIsReady witnessStream j = true →
      chunkIsReady (downloadChunkUpdate witnessStream 1 "c1") j = true) ∧
    ((reprioritizeForSeek witnessStream 4).2.download_queue.Nodup ∧
      ∀ j, j ∈ (reprioritizeForSeek witnessStream 4).2.download_queue
        ↔ (j < witnessStream.total_chunks ∧ chunkIsReady witnessStream j = false)) :=
  C9_download_queue_superset "t1" (List.replicate 40 "u") [0] none none none none
    none witnessStream 1 4 "c1" (by decide)

theorem getChunkForPosition_eq (s : ProgressiveStreamState) (t : ℚ) :
    getChunkForPosition s t
      = if t < (s.first_chunk_segments : ℚ) * 4 then 0
        else min (1 + (⌊(t - (s.first_chunk_segments : ℚ) * 4)
              / ((s.segments_per_chunk : ℚ) * 4)⌋).toNat)
            (planTotal s.total_segments s.first_chunk_segments s.segments_per_chunk
              - 1) := by
  unfold getChunkForPosition rustF64ToUsize
  dsimp only
  rw [Int.floor_intCast]
  rfl

theorem chunkForPos_containment (N F R : Nat) (t : ℚ) (hR : 1 ≤ R) (hNF : F ≤ N)
    (ht : 0 ≤ t) (htN : t < (N : ℚ) * 4) (i : Nat)
    (hi : i = if t < (F : ℚ) * 4 then 0
          else min (1 + (⌊(t - (F : ℚ) * 4) / ((R : ℚ) * 4)⌋).toNat)
            (planTotal N F R - 1)) :
    (planStart F R i : ℚ) * 4 ≤ t ∧ t < (planEnd N F R i : ℚ) * 4 := by
  by_cases hc : t < (F : ℚ) * 4
  · rw [if_pos hc] at hi
    subst hi
    constructor
    · simpa [planStart] using ht
    · have hmin : planEnd N F R 0 = F := by
        unfold planEnd; rw [if_pos rfl, min_eq_left hNF]
      rw [hmin]; exact hc
  · push_neg at hc
    rw [if_neg (not_lt.mpr hc)] at hi
    have hRQ : (1 : ℚ) ≤ (R : ℚ) := by exact_mod_cast hR
    have hR4 : (0 : ℚ) < (R : ℚ) * 4 := by linarith
    obtain ⟨q, hqe⟩ : ∃ q, ⌊(t - (F : ℚ) * 4) / ((R : ℚ) * 4)⌋ = q := ⟨_, rfl⟩
    have hq0 : 0 ≤ q := hqe ▸ Int.floor_nonneg.mpr (div_nonneg (by linarith) (le_of_lt hR4))
    have hfl : (q : ℚ) ≤ (t - (F : ℚ) * 4) / ((R : ℚ) * 4) := hqe ▸ Int.floor_le _
    have hfu : (t - (F : ℚ) * 4) / ((R : ℚ) * 4) < (q : ℚ) + 1 :=
      hqe ▸ Int.lt_floor_add_one _
    have hlow : (q : ℚ) * ((R : ℚ) * 4) ≤ t - (F : ℚ) * 4 := (le_div_iff₀ hR4).mp hfl
    have hupp : t - (F : ℚ) * 4 < ((q : ℚ) + 1) * ((R : ℚ) * 4) := (div_lt_iff₀ hR4).mp hfu
    obtain ⟨qn, hqn⟩ : ∃ qn : ℕ, (qn : ℤ) = q := ⟨q.toNat, Int.toNat_of_nonneg hq0⟩
    have hqnQ : ((qn : ℕ) : ℚ) = ((q : ℤ) : ℚ) := by exact_mod_cast hqn
    have htoNat : q.toNat = qn := by omega
    rw [hqe, htoNat] at hi
    have hFN : F < N := by
      have h1 : (F : ℚ) * 4 < (N : ℚ) * 4 := lt_of_le_of_lt hc htN
      have h2 : (F : ℚ) < (N : ℚ) := by linarith
      exact_mod_cast h2
    have htot : planTotal N F R = 1 + (N - F + R - 1) / R := by
      unfold planTotal; rw [if_neg (Nat.not_le_of_lt hFN)]
    obtain ⟨K, hKe⟩ : ∃ K, (N - F + R - 1) / R = K := ⟨_, rfl⟩
    have hKR : N - F ≤ K * R := by
      have hdm := Nat.div_add_mod (N - F + R - 1) R
      rw [hKe] at hdm
      have hml : (N - F + R - 1) % R < R := Nat.mod_lt _ (by omega)
      have hcm : R * K = K * R := Nat.mul_comm _ _
      omega
    have hlow' : (qn : ℚ) * (R : ℚ) * 4 ≤ t - (F : ℚ) * 4 := by
      rw [← hqnQ] at hlow
      rw [← mul_assoc] at hlow
      exact hlow
    have hupp' : t - (F : ℚ) * 4 < (qn : ℚ) * (R : ℚ) * 4 + (R : ℚ) * 4 := by
      rw [← hqnQ] at hupp
      rw [add_one_mul, ← mul_assoc] at hupp
      exact hupp
    have hj : 1 + qn ≤ planTotal N F R - 1 := by
      rw [htot, hKe]
      by_contra hgt
      push_neg at hgt
      have hKqn : K ≤ qn := by omega
      have h1 : ((N - F : ℕ) : ℚ) ≤ ((K * R : ℕ) : ℚ) := by exact_mod_cast hKR
      have h2 : ((K * R : ℕ) : ℚ) = (K : ℚ) * (R : ℚ) := by push_cast; ring
      have h3 : (K : ℚ) ≤ (qn : ℚ) := by exact_mod_cast hKqn
      have h4 : ((N - F : ℕ) : ℚ) = (N : ℚ) - (F : ℚ) := Nat.cast_sub hNF
      have h5 : (N : ℚ) - (F : ℚ) ≤ (qn : ℚ) * (R : ℚ) := by
        calc (N : ℚ) - (F : ℚ) = ((N - F : ℕ) : ℚ) := h4.symm
          _ ≤ ((K * R : ℕ) : ℚ) := h1
          _ = (K : ℚ) * (R : ℚ) := h2
          _ ≤ (qn : ℚ) * (R : ℚ) := by
              apply mul_le_mul_of_nonneg_right h3
              positivity
      linarith
    rw [min_eq_left hj] at hi
    subst hi
    constructor
    · have hps : planStart F R (1 + qn) = F + qn * R := by
        unfold planStart; rw [if_neg (by simp), Nat.add_sub_cancel_left]
      rw [hps]
      have hcast : ((F + qn * R : ℕ) : ℚ) = (F : ℚ) + (qn : ℚ) * (R : ℚ) := by
        push_cast; ring
      rw [hcast]
      linarith
    · have hpe : planEnd N F R (1 + qn) = min (F + qn * R + R) N := by
        unfold planEnd; rw [if_neg (by simp), Nat.add_sub_cancel_left]
      rw [hpe]
      rcases le_total (F + qn * R + R) N with hle | hge
      · rw [min_eq_left hle]
        have hcast : ((F + qn * R + R : ℕ) : ℚ)
            = (F : ℚ) + (qn : ℚ) * (R : ℚ) + (R : ℚ) := by push_cast; ring
        rw [hcast]
        linarith
      · rw [min_eq_right hge]
        exact htN

/-- C6: for an active stream and a non-negative position `t`,
`get_chunk_for_position` returns `0` when `t < F·4` and otherwise
`min(total_chunks − 1, 1 + floor((t − F·4) / (R·4)))`; consequently for
`N ≥ F` and `t < N·4` the returned index's segment range, scaled by the 4 s
segment duration, contains `t` (exactly, which is within the claimed one
segment of rounding). -/
theorem C6_chunk_for_position (s : ProgressiveStreamState) (t : ℚ)
    (ht : 0 ≤ t) (hR : 1 ≤ s.segments_per_chunk) :
    (t < (s.first_chunk_segments : ℚ) * 4 → getChunkForPosition s t = 0) ∧
    ((s.first_chunk_segments : ℚ) * 4 ≤ t →
      getChunkForPosition s t
        = min (s.total_chunks - 1)
            (1 + (⌊(t - (s.first_chunk_segments : ℚ) * 4)
              / ((s.segments_per_chunk : ℚ) * 4)⌋).toNat)) ∧
    (s.first_chunk_segments ≤ s.total_segments →
      t < (s.total_segments : ℚ) * 4 →
      ((s.get_chunk_segment_range (getChunkForPosition s t)).1 : ℚ) * 4 ≤ t ∧
      t < ((s.get_chunk_segment_range (getChunkForPosition s t)).2 : ℚ) * 4) := by
  refine ⟨?_, ?_, ?_⟩
  · intro h
    rw [getChunkForPosition_eq, if_pos h]
  · intro h
    rw [getChunkForPosition_eq, if_neg (not_lt.mpr h), total_chunks_eq_planTotal,
      Nat.min_comm]
  · intro hNF htN
    have hcont := chunkForPos_containment s.total_segments s.first_chunk_segments
      s.segments_per_chunk t hR hNF ht htN (getChunkForPosition s t)
      (getChunkForPosition_eq s t)
    rw [segment_range_eq_plan]
    exact hcont

/-- Witness for C6 at `t = 100` s on the 40-segment stream (`F = 2`, `R = 8`,
6 chunks): the position falls in chunk `min(5, 1 + ⌊92/32⌋) = 3`. -/
theorem C6_witness :
    ((100 : ℚ) < (witnessStream.first_chunk_segments : ℚ) * 4 →
      getChunkForPosition witnessStream 100 = 0) ∧
    ((witnessStream.first_chunk_segments : ℚ) * 4 ≤ 100 →
      getChunkForPosition witnessStream 100
        = min (witnessStream.total_chunks - 1)
            (1 + (⌊((100 : ℚ) - (witnessStream.first_chunk_segments : ℚ) * 4)
              / ((witnessStream.segments_per_chunk : ℚ) * 4)⌋).toNat)) ∧
    (witnessStream.first_chunk_segments ≤ witnessStream.total_segments →
      (100 : ℚ) < (witnessStream.total_segments : ℚ) * 4 →
      ((witnessStream.get_chunk_segment_range
          (getChunkForPosition witnessStream 100)).1 : ℚ) * 4 ≤ 100 ∧
      (100 : ℚ) < ((witnessStream.get_chunk_segment_range
          (getChunkForPosition witnessStream 100)).2 : ℚ) * 4) :=
  C6_chunk_for_position witnessStream 100 (by norm_num) (by decide)

/-- C4: a manifest with `N < 20` segments and either no declared duration or a
declared duration with `N < ((duration_ms / 1000) / 4) / 2` is rejected by
`start_progressive_stream` with the preview-manifest error message, and no
state is installed: `has_active_stream(track_id)` is still false afterwards. -/
theorem C4_preview_rejected (streams : StreamMap) (track_id : String)
    (media_urls : List String) (init_fetch : Except String (List Nat))
    (sample_rate bit_depth : Option Nat)
    (track_name artist_name album_name : Option String)
    (expected_duration_ms : Option Nat) (chunk0_net : Except String Unit)
    (hN : media_urls.length < 20)
    (hdur : expected_duration_ms = none ∨
      ∃ d, expected_duration_ms = some d ∧ media_urls.length < d / 1000 / 4 / 2)
    (hfresh : hasActiveStream streams track_id = false) :
    (expected_duration_ms = none →
      (startProgressiveStream streams track_id media_urls init_fetch
          sample_rate bit_depth track_name artist_name album_name
          expected_duration_ms chunk0_net).2
        = .error ("Preview manifest detected: only "
            ++ toString media_urls.length ++ " segments")) ∧
    (∀ d, expected_duration_ms = some d →
      (startProgressiveStream streams track_id media_urls init_fetch
          sample_rate bit_depth track_name artist_name album_name
          expected_duration_ms chunk0_net).2
        = .error ("Preview manifest detected: got "
            ++ toString media_urls.length ++ " segments, expected ~"
            ++ toString (d / 1000 / 4) ++ " for "
            ++ toString (d / 1000) ++ "s track")) ∧
    hasActiveStream (startProgressiveStream streams track_id media_urls init_fetch
        sample_rate bit_depth track_name artist_name album_name
        expected_duration_ms chunk0_net).1 track_id = false := by
  have hlt_of_some : ∀ d, expected_duration_ms = some d →
      media_urls.length < d / 1000 / 4 / 2 := by
    intro d hd
    rcases hdur with hnone | ⟨d', hd', hlt⟩
    · rw [hnone] at hd; cases hd
    · rw [hd'] at hd
      cases hd
      exact hlt
  have hcheck : ∃ e, previewCheck media_urls.length expected_duration_ms
      = .error e := by
    rcases hdur with hnone | ⟨d, hd, hlt⟩
    · refine ⟨"Preview manifest detected: only "
        ++ toString media_urls.length ++ " segments", ?_⟩
      unfold previewCheck
      rw [hnone, if_pos hN]
    · refine ⟨"Preview manifest detected: got "
        ++ toString media_urls.length ++ " segments, expected ~"
        ++ toString (d / 1000 / 4) ++ " for "
        ++ toString (d / 1000) ++ "s track", ?_⟩
      unfold previewCheck
      rw [hd, if_pos hN]
      dsimp only
      rw [if_pos hlt]
  obtain ⟨e, he⟩ := hcheck
  refine ⟨?_, ?_, ?_⟩
  · intro hnone
    unfold startProgressiveStream
    dsimp only
    have he' : previewCheck media_urls.length expected_duration_ms
        = .error ("Preview manifest detected: only "
            ++ toString media_urls.length ++ " segments") := by
      unfold previewCheck
      rw [hnone, if_pos hN]
    rw [he']
  · intro d hd
    unfold startProgressiveStream
    dsimp only
    have he' : previewCheck media_urls.length expected_duration_ms
        = .error ("Preview manifest detected: got "
            ++ toString media_urls.length ++ " segments, expected ~"
            ++ toString (d / 1000 / 4) ++ " for "
            ++ toString (d / 1000) ++ "s track") := by
      unfold previewCheck
      rw [hd, if_pos hN]
      dsimp only
      rw [if_pos (hlt_of_some d hd)]
    rw [he']
  · unfold startProgressiveStream
    dsimp only
    rw [he]
    exact hfresh

/-- Witness for C4: an 8-segment preview manifest for a declared 180 s track
(`expected_segments = 45`, `45 / 2 = 22 > 8`), started on an empty registry. -/
theorem C4_witness :
    ((some 180000 : Option Nat) = none →
      (startProgressiveStream [] "w" (List.replicate 8 "u") (.ok [0])
          (some 44100) (some 16) none none none (some 180000) (.ok ())).2
        = .error ("Preview manifest detected: only "
            ++ toString (List.replicate 8 "u").length ++ " segments")) ∧
    (∀ d, (some 180000 : Option Nat) = some d →
      (startProgressiveStream [] "w" (List.replicate 8 "u") (.ok [0])
          (some 44100) (some 16) none none none (some 180000) (.ok ())).2
        = .error ("Preview manifest detected: got "
            ++ toString (List.replicate 8 "u").length ++ " segments, expected ~"
            ++ toString (d / 1000 / 4) ++ " for "
            ++ toString (d / 1000) ++ "s track")) ∧
    hasActiveStream (startProgressiveStream [] "w" (List.replicate 8 "u") (.ok [0])
        (some 44100) (some 16) none none none (some 180000) (.ok ())).1 "w"
      = false :=
  C4_preview_rejected [] "w" (List.replicate 8 "u") (.ok [0]) (some 44100)
    (some 16) none none none (some 180000) (.ok ()) (by decide)
    (Or.inr ⟨180000, rfl, by decide⟩) (by decide)

/-- C2 fails on the code: `seek_internal` truncates instead of rounding
(`Seek(3/4)` at 2 Hz mono yields cursor `⌊1.5⌋ = 1`, while the claim's
`round(1.5) = 2`), and it does not clamp to `[0, duration]` (`Seek(5)` with
duration 1 stores position 5 and cursor 10 instead of the clamped 2). -/
theorem C2_seek_counterexample :
    ((0 : ℚ) ≤ 3 / 4 ∧ (3 / 4 : ℚ) ≤ audioExample.state.duration) ∧
    (seekInternal audioExample (3 / 4)).buffer_position
      ≠ (round ((3 / 4 : ℚ) * (audioExample.state.sample_rate : ℚ)
          * (audioExample.state.channels : ℚ))).toNat ∧
    (seekInternal audioExample 5).state.position = 5 ∧
    (seekInternal audioExample 5).buffer_position = 10 := by
  have hb1 : (seekInternal audioExample (3 / 4)).buffer_position = 1 := by
    simp only [seekInternal, audioExample, rustF64ToUsize]
    norm_num
  have hr : (round ((3 / 4 : ℚ) * (audioExample.state.sample_rate : ℚ)
      * (audioExample.state.channels : ℚ))).toNat = 2 := by
    simp only [audioExample]
    norm_num [round_eq]
    decide
  have hb2 : (seekInternal audioExample 5).buffer_position = 10 := by
    simp only [seekInternal, audioExample, rustF64ToUsize]
    norm_num
    decide
  refine ⟨⟨by norm_num, by norm_num [audioExample]⟩, ?_, rfl, hb2⟩
  rw [hb1, hr]
  decide

/-- C2 amended: `Seek(t)` performs no clamping and truncates: it stores
`position = t` unchanged and sets the cursor to `⌊t · rate · channels⌋`
(saturated at 0 for negative products); for `t ≥ 0` the cursor `n` brackets
the exact sample position as `n ≤ t · rate · channels < n + 1`. -/
theorem C2_seek_truncates (m : AudioThreadState) (t : ℚ) (ht : 0 ≤ t) :
    (seekInternal m t).state.position = t ∧
    (seekInternal m t).buffer_position
      = (⌊t * (m.state.sample_rate : ℚ) * (m.state.channels : ℚ)⌋).toNat ∧
    ((seekInternal m t).buffer_position : ℚ)
      ≤ t * (m.state.sample_rate : ℚ) * (m.state.channels : ℚ) ∧
    t * (m.state.sample_rate : ℚ) * (m.state.channels : ℚ)
      < (seekInternal m t).buffer_position + 1 := by
  have hx : (0 : ℚ) ≤ t * (m.state.sample_rate : ℚ) * (m.state.channels : ℚ) := by
    positivity
  have hfl : 0 ≤ ⌊t * (m.state.sample_rate : ℚ) * (m.state.channels : ℚ)⌋ :=
    Int.floor_nonneg.mpr hx
  have hpos : (seekInternal m t).buffer_position
      = (⌊t * (m.state.sample_rate : ℚ) * (m.state.channels : ℚ)⌋).toNat := rfl
  have hcast : (((⌊t * (m.state.sample_rate : ℚ) * (m.state.channels : ℚ)⌋).toNat : ℕ) : ℚ)
      = ((⌊t * (m.state.sample_rate : ℚ) * (m.state.channels : ℚ)⌋ : ℤ) : ℚ) := by
    exact_mod_cast Int.toNat_of_nonneg hfl
  refine ⟨rfl, hpos, ?_, ?_⟩
  · rw [hpos, hcast]
    exact Int.floor_le _
  · rw [hpos]
    rw [hcast]
    exact Int.lt_floor_add_one _

/-- Witness for C2's amended statement: `Seek(1/2)` at 2 Hz mono lands the
cursor at sample 1. -/
theorem C2_seek_witness :
    (seekInternal audioExample (1 / 2)).state.position = 1 / 2 ∧
    (seekInternal audioExample (1 / 2)).buffer_position
      = (⌊(1 / 2 : ℚ) * (audioExample.state.sample_rate : ℚ)
          * (audioExample.state.channels : ℚ)⌋).toNat ∧
    ((seekInternal audioExample (1 / 2)).buffer_position : ℚ)
      ≤ (1 / 2 : ℚ) * (audioExample.state.sample_rate : ℚ)
          * (audioExample.state.channels : ℚ) ∧
    (1 / 2 : ℚ) * (audioExample.state.sample_rate : ℚ)
        * (audioExample.state.channels : ℚ)
      < (seekInternal audioExample (1 / 2)).buffer_position + 1 :=
  C2_seek_truncates audioExample (1 / 2) (by norm_num)

/-- C7: a successfully processed `AppendSamples` extends the buffer in place,
recomputes `duration` as `buffer.len() / (out_rate · out_channels)` for the
extended buffer, clears `track_finished`, and leaves the play cursor
`buffer_position` untouched. -/
theorem C7_append_samples (m : AudioThreadState) (final_samples : List ℚ)
    (r c : Nat) (m2 : AudioThreadState)
    (hr : m.output_sample_rate = some r) (hc : m.output_channels = some c)
    (h : appendSamplesInternal m final_samples = .ok m2) :
    m2.sample_buffer = m.sample_buffer ++ final_samples ∧
    m2.state.duration = (m2.sample_buffer.length : ℚ) / ((r : ℚ) * (c : ℚ)) ∧
    m2.state.track_finished = false ∧
    m2.buffer_position = m.buffer_position := by
  unfold appendSamplesInternal at h
  rw [hr, hc] at h
  dsimp only at h
  injection h with h
  subst h
  exact ⟨rfl, rfl, rfl, rfl⟩

/-- Witness for C7: appending two samples to the 2 Hz mono engine doubles the
duration (4 samples / 2 Hz = 2 s) without moving the cursor. -/
theorem C7_witness :
    appendedExample.sample_buffer = audioExample.sample_buffer ++ [1, 1] ∧
    appendedExample.state.duration
      = (appendedExample.sample_buffer.length : ℚ) / ((2 : ℚ) * (1 : ℚ)) ∧
    appendedExample.state.track_finished = false ∧
    appendedExample.buffer_position = audioExample.buffer_position :=
  C7_append_samples audioExample [1, 1] 2 1 appendedExample rfl rfl rfl

/-- C10 (implicit in the spec): a successfully processed `AppendSamples` also
sets `is_playing` to true, so appending a chunk while the engine is paused
(`Pause` stores `is_playing = false`) resumes playback as a side effect. -/
theorem C10_append_resumes_paused (m : AudioThreadState) (final_samples : List ℚ)
    (m2 : AudioThreadState)
    (h : appendSamplesInternal (pauseInternal m) final_samples = .ok m2) :
    (pauseInternal m).state.is_playing = false ∧
    m2.state.is_playing = true := by
  refine ⟨rfl, ?_⟩
  unfold appendSamplesInternal at h
  unfold pauseInternal at h
  rcases hsr : m.output_sample_rate with _ | r
  · rw [hsr] at h
    dsimp only at h
    cases h
  · rcases hoc : m.output_channels with _ | c
    · rw [hsr, hoc] at h
      dsimp only at h
      cases h
    · rw [hsr, hoc] at h
      dsimp only at h
      injection h with h
      subst h
      rfl

/-- Witness for C10: pausing the 2 Hz mono engine and appending one sample
flips `is_playing` back to true. -/
theorem C10_witness :
    (pauseInternal audioExample).state.is_playing = false ∧
    appendedPausedExample.state.is_playing = true :=
  C10_append_resumes_paused audioExample [1] appendedPausedExample rfl

theorem frame_slice_getD (samples : List ℚ) (s n ch : Nat) (h : ch < n) :
    ((samples.drop s).take n).getD ch 0 = samples.getD (s + ch) 0 := by
  rw [List.getD_eq_getElem?_getD, List.getD_eq_getElem?_getD,
    List.getElem?_take, if_pos h, List.getElem?_drop]

theorem flatMap_congr_mem {α β : Type} (l : List α) (f g : α → List β)
    (h : ∀ a ∈ l, f a = g a) : l.flatMap f = l.flatMap g := by
  induction l with
  | nil => rfl
  | cons a l ih =>
    rw [List.flatMap_cons, List.flatMap_cons, h a (List.mem_cons_self a l),
      ih (fun b hb => h b (List.mem_cons_of_mem a hb))]

theorem convertFrame_eq_specFrame (samples : List ℚ) (n m fs : Nat)
    (hn : 1 ≤ n) (hnm : n ≠ m) :
    convertFrame samples n m fs
      = rechannelSpecFrame ((samples.drop fs).take n) n m := by
  have hsl : ∀ ch, ch < n →
      ((samples.drop fs).take n).getD ch 0 = samples.getD (fs + ch) 0 :=
    fun ch hch => frame_slice_getD samples fs n ch hch
  unfold convertFrame rechannelSpecFrame
  by_cases hlt : m < n
  · rw [if_pos hlt]
    by_cases h21 : m = 1 ∧ n = 2
    · obtain ⟨hm, hn2⟩ := h21
      subst hm
      subst hn2
      rw [if_pos ⟨rfl, rfl⟩, if_neg (by omega), if_pos ⟨rfl, rfl⟩,
        hsl 0 (by omega), hsl 1 (by omega)]
      simp
    · rw [if_neg h21]
      by_cases h22 : m = 2 ∧ 2 < n
      · obtain ⟨hm, hn2⟩ := h22
        subst hm
        rw [if_pos ⟨rfl, hn2⟩, if_pos (show 1 < n by omega), if_neg (by omega),
          if_neg (by omega), if_pos ⟨hn2, rfl⟩, hsl 0 (by omega),
          hsl 1 (by omega)]
        simp
      · rw [if_neg h22, if_neg (by omega), if_neg (by omega), if_neg (by omega)]
        apply List.map_congr_left
        intro ch hch
        have hchm : ch < m := List.mem_range.mp hch
        rw [if_pos (by omega : ch < n), hsl ch (by omega)]
  · rw [if_neg hlt]
    have hmn : n < m := by omega
    by_cases h12 : n = 1 ∧ m = 2
    · obtain ⟨hn1, hm2⟩ := h12
      subst hn1
      subst hm2
      rw [if_pos ⟨rfl, rfl⟩, if_pos ⟨rfl, rfl⟩, hsl 0 (by omega)]
      simp
    · rw [if_neg h12, if_neg h12, if_neg (by omega), if_neg (by omega)]
      apply List.map_congr_left
      intro ch hch
      by_cases hchn : ch < n
      · rw [if_pos hchn, if_pos hchn, hsl ch hchn]
      · rw [if_neg hchn, if_neg hchn]

/-- C8: the channel converter is pure and satisfies exactly the
specification's rules — `convert_channels` coincides with the converter
defined verbatim from the spec (identity on `c → c`, duplicate `1 → 2`,
average `2 → 1`, channels 0 and 1 for `n > 2 → 2`, truncation for `m < n`,
zero-padding for `m > n`) for every input with at least one source channel. -/
theorem C8_convert_channels (samples : List ℚ) (n m : Nat) (hn : 1 ≤ n) :
    convert_channels samples n m = rechannelSpec samples n m := by
  by_cases hnm : n = m
  · subst hnm
    unfold convert_channels rechannelSpec
    rw [if_pos (Or.inl rfl), if_pos rfl]
  · unfold convert_channels rechannelSpec
    rw [if_neg (by omega), if_neg hnm]
    dsimp only
    apply flatMap_congr_mem
    intro f _
    exact convertFrame_eq_specFrame samples n m (f * n) hn hnm

/-- Witness for C8 on a concrete stereo→mono conversion. -/
theorem C8_witness :
    convert_channels [1, 2, 3, 4] 2 1 = rechannelSpec [1, 2, 3, 4] 2 1 :=
  C8_convert_channels [1, 2, 3, 4] 2 1 (by decide)
